import Mathlib

set_option maxRecDepth 10000

/-!
Verification development for the mcode-cli patch/replace subsystem and
tool-call loop.  Go strings are embedded as `List Char`; each definition
is a direct port of the corresponding function in the repository's Go
sources (`pkg/tools/tools.go`, `pkg/tools/diff.go`, `pkg/agent/agent.go`).
-/

namespace MCode

/-- Go strings, embedded as lists of characters. -/
abbrev Str := List Char

/-- Decidable equality of `Except` results (used only to let witnesses be
checked by `decide`). -/
instance instDecEqExcept {ε α : Type} [DecidableEq ε] [DecidableEq α] :
    DecidableEq (Except ε α) := fun a b => by
  cases a <;> cases b
  case error.error x y => exact decidable_of_iff (x = y) (by simp)
  case error.ok x y => exact Decidable.isFalse (by simp)
  case ok.error x y => exact Decidable.isFalse (by simp)
  case ok.ok x y => exact decidable_of_iff (x = y) (by simp)

/-- Character class of Go's regexp `\s` (RE2): space, tab, newline,
form feed, carriage return. -/
def isRegexSpace (c : Char) : Bool :=
  c = ' ' || c = '\t' || c = '\n' || c = '\x0c' || c = '\r'

/-- Character class used by Go's `strings.TrimSpace` (Unicode White_Space);
the ASCII part plus the two Latin-1 members. -/
def isTrimSpace (c : Char) : Bool :=
  c = ' ' || c = '\t' || c = '\n' || c = '\x0b' || c = '\x0c' || c = '\r' ||
  c = '\x85' || c = '\xa0'

/-- `strings.TrimSpace`: drop leading and trailing whitespace. -/
def trimSpace (s : Str) : Str :=
  ((s.dropWhile isTrimSpace).reverse.dropWhile isTrimSpace).reverse

/-- `strings.Split(s, "\n")` (always returns at least one piece). -/
def splitLines : Str → List Str
  | [] => [[]]
  | c :: rest =>
    match splitLines rest with
    | [] => [[]]
    | l :: ls => if c = '\n' then [] :: l :: ls else (c :: l) :: ls

/-- `strings.Join(lines, "\n")`. -/
def joinLines (ls : List Str) : Str :=
  List.intercalate ['\n'] ls

/-- All positions `i` at which `pat` occurs in `s` as a literal substring
(byte positions in Go; character positions here). -/
def occPositions (s pat : Str) : List Nat :=
  (List.range (s.length + 1)).filter (fun i => pat.isPrefixOf (s.drop i))

/-- `strings.Contains(s, pat)`. -/
def goContains (s pat : Str) : Bool :=
  (List.range (s.length + 1)).any (fun i => pat.isPrefixOf (s.drop i))

/-- `strings.Index(s, pat)`: position of the first occurrence
(`none` stands for Go's `-1`). -/
def goIndex (s pat : Str) : Option Nat :=
  (occPositions s pat).head?

/-- `strings.LastIndex(s, pat)`: position of the last occurrence
(`none` stands for Go's `-1`). -/
def goLastIndex (s pat : Str) : Option Nat :=
  (occPositions s pat).getLast?

/-- `strings.Replace(s, pat, new, 1)`: replace the first occurrence
(with Go's behaviour of inserting at the front when `pat` is empty). -/
def goReplaceOnce : Str → (pat new : Str) → Str
  | s, pat, new =>
    if pat.isPrefixOf s then new ++ s.drop pat.length
    else
      match s with
      | [] => []
      | c :: rest => c :: goReplaceOnce rest pat new

/-- `strings.ReplaceAll(s, pat, new)`: replace every non-overlapping
occurrence, scanning left to right (empty `pat` inserts `new` before every
character and at the end, as in Go). -/
def goReplaceAll : Str → (pat new : Str) → Str
  | [], pat, new => if pat = [] then new else []
  | c :: rest, pat, new =>
    if h : pat ≠ [] ∧ pat.isPrefixOf (c :: rest) then
      new ++ goReplaceAll ((c :: rest).drop pat.length) pat new
    else if pat = [] then new ++ c :: goReplaceAll rest pat new
    else c :: goReplaceAll rest pat new
termination_by s => s.length
decreasing_by
  · simp only [List.length_drop, List.length_cons]
    have hp : 0 < pat.length := List.length_pos.mpr h.1
    omega
  · simp
  · simp

/-- `SimpleReplacer.FindMatches`: exact literal containment. -/
def SimpleReplacer.FindMatches (content find : Str) : List Str :=
  if goContains content find then [find] else []

/-- Whether the `LineTrimmedReplacer` window starting at line `i` matches:
every line equal after `strings.TrimSpace`. -/
def lineTrimmedMatchesAt (originalLines searchLines : List Str) (i : Nat) : Bool :=
  (List.range searchLines.length).all
    (fun j => trimSpace (originalLines.getD (i + j) []) = trimSpace (searchLines.getD j []))

/-- `LineTrimmedReplacer.FindMatches`: compare line by line after trimming
each line, and recover the exact original substring spanning the matched
lines (via the same start/end offset arithmetic as the Go code). -/
def LineTrimmedReplacer.FindMatches (content find : Str) : List Str :=
  let originalLines := splitLines content
  let searchLines0 := splitLines find
  let searchLines :=
    if searchLines0.getLast? = some [] then searchLines0.dropLast else searchLines0
  match (List.range (originalLines.length + 1 - searchLines.length)).find?
      (fun i => lineTrimmedMatchesAt originalLines searchLines i) with
  | none => []
  | some i =>
    let matchStart := ((originalLines.take i).map (fun l => l.length + 1)).sum
    let matchEnd := matchStart +
      ((List.range searchLines.length).map
        (fun k => (originalLines.getD (i + k) []).length +
          (if k < searchLines.length - 1 then 1 else 0))).sum
    [(content.drop matchStart).take (matchEnd - matchStart)]

/-- Collapse maximal runs of `\s` characters to a single space
(worker for the `regexp.MustCompile("\\s+")` replacement). -/
def collapseWs : Bool → Str → Str
  | _, [] => []
  | prevWs, c :: rest =>
    if isRegexSpace c then
      if prevWs then collapseWs true rest else ' ' :: collapseWs true rest
    else c :: collapseWs false rest

/-- `normalizeWhitespace` from `WhitespaceNormalizedReplacer.FindMatches`:
trim, then collapse interior whitespace runs to single spaces. -/
def normalizeWhitespace (t : Str) : Str :=
  collapseWs false (trimSpace t)

/-- `WhitespaceNormalizedReplacer.FindMatches`: whole lines (and, for a
multi-line pattern, joined blocks of consecutive lines) equal after
whitespace normalization. -/
def WhitespaceNormalizedReplacer.FindMatches (content find : Str) : List Str :=
  let normalizedFind := normalizeWhitespace find
  let lines := splitLines content
  let singles := lines.filter (fun line => normalizeWhitespace line = normalizedFind)
  let findLines := splitLines find
  let multis :=
    if findLines.length > 1 then
      (List.range (lines.length + 1 - findLines.length)).filterMap
        (fun i =>
          let block := joinLines ((lines.drop i).take findLines.length)
          if normalizeWhitespace block = normalizedFind then some block else none)
    else []
  singles ++ multis

/-- Length of the run of leading spaces/tabs of a line. -/
def leadingWsCount (l : Str) : Nat :=
  (l.takeWhile (fun c => c = ' ' || c = '\t')).length

/-- `removeIndentation` from `IndentationFlexibleReplacer.FindMatches`:
strip the minimum common leading indentation of the non-empty lines. -/
def removeIndentation (text : Str) : Str :=
  let lines := splitLines text
  let nonEmptyLines := lines.filter (fun l => trimSpace l ≠ [])
  match nonEmptyLines with
  | [] => text
  | first :: _ =>
    let minIndent := nonEmptyLines.foldl (fun acc l => min acc (leadingWsCount l)) first.length
    joinLines (lines.map (fun l =>
      if trimSpace l = [] then l
      else if l.length > minIndent then l.drop minIndent
      else l))

/-- `IndentationFlexibleReplacer.FindMatches`: blocks of equal line count
equal after stripping minimum common indentation from both sides. -/
def IndentationFlexibleReplacer.FindMatches (content find : Str) : List Str :=
  let normalizedFind := removeIndentation find
  let contentLines := splitLines content
  let findLines := splitLines find
  (List.range (contentLines.length + 1 - findLines.length)).filterMap
    (fun i =>
      let block := joinLines ((contentLines.drop i).take findLines.length)
      if removeIndentation block = normalizedFind then some block else none)

/-- The four strategies of `ReplaceInContent`, in the source's priority
order, with their candidate lists concatenated (the Go code iterates the
replacer slice outside and the match slice inside, returning at the first
usable candidate, which scans exactly this concatenation in order). -/
def allMatches (content oldString : Str) : List Str :=
  SimpleReplacer.FindMatches content oldString ++
  LineTrimmedReplacer.FindMatches content oldString ++
  WhitespaceNormalizedReplacer.FindMatches content oldString ++
  IndentationFlexibleReplacer.FindMatches content oldString

/-- The per-candidate usability test of `ReplaceInContent`: a candidate is
taken when `replaceAll` is set, or when its first and last occurrence
indices coincide (`strings.Index == strings.LastIndex`). -/
def findUsableMatch (content : Str) (replaceAll : Bool) : List Str → Option Str
  | [] => none
  | m :: rest =>
    if replaceAll || (goIndex content m == goLastIndex content m) then some m
    else findUsableMatch content replaceAll rest

/-- `ReplaceInContent`: fail fast on a no-op, then try the strategies in
order, replacing all occurrences (`replaceAll`) or the unique occurrence of
the first usable candidate. -/
def ReplaceInContent (content oldString newString : Str) (replaceAll : Bool) : Except Str Str :=
  if oldString = newString then
    .error (("oldString and newString must be different").toList)
  else
    match findUsableMatch content replaceAll (allMatches content oldString) with
    | some m =>
      if replaceAll then .ok (goReplaceAll content m newString)
      else .ok (goReplaceOnce content m newString)
    | none =>
      .error (("oldString not found in content or multiple ambiguous matches found").toList)

/-- Length of the longest common prefix of two lists. -/
def commonPrefixLen {α : Type} [DecidableEq α] : List α → List α → Nat
  | a :: as, b :: bs => if a = b then commonPrefixLen as bs + 1 else 0
  | _, _ => 0

/-- Opcode tags of the line-level edit script ('e', 'r', 'd', 'i'). -/
inductive OpTag
  | e | r | d | i
deriving DecidableEq, Repr

/-- One opcode of the edit script: a tag with its old-range and new-range. -/
structure OpCode where
  tag : OpTag
  i1 : Nat
  i2 : Nat
  j1 : Nat
  j2 : Nat
deriving DecidableEq, Repr

/-- Modelled from the spec: the opcode computation lives in the external
`go-difflib` dependency, which is not among this repository's sources.  The
spec (§4.2) requires "an LCS-based edit script ... that is monotonic and
covers every line of both sequences exactly once".  We model it by stripping
the longest common prefix and the longest common suffix of the remainder and
classifying the middle as a single replace/delete/insert region; on inputs
whose differences form one contiguous region this is an LCS-optimal script,
and it is always monotonic and covers every line of both sequences exactly
once. -/
def getOpCodes (a b : List Str) : List OpCode :=
  let p := commonPrefixLen a b
  let s := commonPrefixLen (a.drop p).reverse (b.drop p).reverse
  let la := a.length
  let lb := b.length
  let pre := if 0 < p then [OpCode.mk OpTag.e 0 p 0 p] else []
  let mid :=
    if p < la - s ∧ p < lb - s then [OpCode.mk OpTag.r p (la - s) p (lb - s)]
    else if p < la - s then [OpCode.mk OpTag.d p (la - s) p p]
    else if p < lb - s then [OpCode.mk OpTag.i p p p (lb - s)]
    else []
  let post := if 0 < s then [OpCode.mk OpTag.e (la - s) la (lb - s) lb] else []
  pre ++ mid ++ post

/-- One rendered line of `GenerateDiff`'s output (each constructor stands
for one `WriteString` call of the source). -/
inductive DiffLine
  | header (filename : Str)
  | rule
  | noChanges
  | ellipsisMark
  | ctx (oldNum newNum : Nat) (line : Str)
  | del (oldNum : Nat) (line : Str)
  | add (newNum : Nat) (line : Str)
deriving DecidableEq, Repr

/-- One context line of the diff (old line number, aligned new number,
text), as written by the equal-span branches of `GenerateDiff`. -/
def ctxLine (oldLines : List Str) (i1 j1 i : Nat) : DiffLine :=
  DiffLine.ctx (i + 1) (j1 + (i - i1) + 1) (oldLines.getD i [])

/-- Context lines for old-line indices `lo ≤ i < hi`. -/
def ctxRange (oldLines : List Str) (i1 j1 lo hi : Nat) : List DiffLine :=
  (List.range' lo (hi - lo)).map (ctxLine oldLines i1 j1)

/-- Removed lines for old-line indices `lo ≤ i < hi`. -/
def delRange (oldLines : List Str) (lo hi : Nat) : List DiffLine :=
  (List.range' lo (hi - lo)).map (fun i => DiffLine.del (i + 1) (oldLines.getD i []))

/-- Added lines for new-line indices `lo ≤ j < hi`. -/
def addRange (newLines : List Str) (lo hi : Nat) : List DiffLine :=
  (List.range' lo (hi - lo)).map (fun j => DiffLine.add (j + 1) (newLines.getD j []))

/-- `contextLines` of `GenerateDiff` (the spec's CONTEXT_LINES). -/
def contextLines : Nat := 3

/-- Rendering of the opcode at position `idx` of `total`, following the
switch statement of `GenerateDiff` (equal spans show windowed context
depending on whether a change precedes/follows; replace shows removed then
added lines; delete/insert show one side). -/
def renderOpcode (oldLines newLines : List Str) (total idx : Nat) (op : OpCode) : List DiffLine :=
  match op.tag with
  | OpTag.e =>
    let hasPreviousChange := 0 < idx
    let hasNextChange := idx < total - 1
    if hasPreviousChange && hasNextChange then
      if op.i2 - op.i1 > contextLines * 2 then
        ctxRange oldLines op.i1 op.j1 op.i1 (min (op.i1 + contextLines) op.i2) ++
        [DiffLine.ellipsisMark] ++
        ctxRange oldLines op.i1 op.j1 (max (op.i2 - contextLines) (op.i1 + contextLines)) op.i2
      else
        ctxRange oldLines op.i1 op.j1 op.i1 op.i2
    else if hasPreviousChange then
      ctxRange oldLines op.i1 op.j1 op.i1 (min (op.i1 + contextLines) op.i2)
    else if hasNextChange then
      ctxRange oldLines op.i1 op.j1 (max (op.i2 - contextLines) op.i1) op.i2
    else []
  | OpTag.r => delRange oldLines op.i1 op.i2 ++ addRange newLines op.j1 op.j2
  | OpTag.d => delRange oldLines op.i1 op.i2
  | OpTag.i => addRange newLines op.j1 op.j2

/-- The body loop of `GenerateDiff` (`for opcodeIdx, opcode := range opcodes`):
render each opcode at its index. -/
def renderOpcodesFrom (oldLines newLines : List Str) (total : Nat) :
    Nat → List OpCode → List DiffLine
  | _, [] => []
  | idx, op :: rest =>
    renderOpcode oldLines newLines total idx op ++
    renderOpcodesFrom oldLines newLines total (idx + 1) rest

/-- `firstLineShown` of `GenerateDiff`: `max 0 (i1 - contextLines)` of the
first non-equal opcode, defaulting to the number of old lines. -/
def firstLineShown (opcodes : List OpCode) (numOldLines : Nat) : Nat :=
  match opcodes.find? (fun op => !(op.tag == OpTag.e)) with
  | some op => op.i1 - contextLines
  | none => numOldLines

/-- `lastLineShown` of `GenerateDiff`: `min (numOldLines-1) (i2+contextLines-1)`
of the last non-equal opcode, defaulting to `-1` (hence `Int`). -/
def lastLineShown (opcodes : List OpCode) (numOldLines : Nat) : Int :=
  match opcodes.reverse.find? (fun op => !(op.tag == OpTag.e)) with
  | some op => Int.ofNat (min (numOldLines - 1) (op.i2 + contextLines - 1))
  | none => -1

/-- `GenerateDiff` (the difflib-backed renderer of `tools.go`): header and
rule, the "No changes" sentinel for identical contents, otherwise the
windowed rendering of the edit script with leading/trailing ellipsis marks
when the shown window does not reach the first/last old line. -/
def GenerateDiff (oldContent newContent filename : Str) : List DiffLine :=
  let head := [DiffLine.header filename, DiffLine.rule]
  if oldContent = newContent then head ++ [DiffLine.noChanges]
  else
    let oldLines := splitLines oldContent
    let newLines := splitLines newContent
    let opcodes := getOpCodes oldLines newLines
    let lead :=
      if firstLineShown opcodes oldLines.length > 0 then [DiffLine.ellipsisMark] else []
    let body := renderOpcodesFrom oldLines newLines opcodes.length 0 opcodes
    let trail :=
      if lastLineShown opcodes oldLines.length < (oldLines.length : Int) - 1 then
        [DiffLine.ellipsisMark]
      else []
    head ++ lead ++ body ++ trail

/-- Roles of conversation messages. -/
inductive Role
  | system | user | assistant | tool
deriving DecidableEq, Repr

/-- A conversation message: role, content, and (for tool-role results) the
correlating tool-call id. -/
structure Msg where
  role : Role
  content : Str
  toolCallID : Str := []
deriving DecidableEq, Repr

/-- `TrimContext`: keep every system message (in order), then the
non-system messages among the last 6 messages (all non-system messages when
there are at most 6); inputs of at most 3 messages are returned unchanged. -/
def TrimContext (messages : List Msg) : List Msg :=
  if messages.length ≤ 3 then messages
  else
    let trimmed := messages.filter (fun m => m.role == Role.system)
    let keepCount := 6
    if messages.length > keepCount then
      trimmed ++ (messages.drop (messages.length - keepCount)).filter
        (fun m => !(m.role == Role.system))
    else
      trimmed ++ messages.filter (fun m => !(m.role == Role.system))

/-- The history handed to the model by one `Chat` loop iteration
(lines 258-263 of `agent.go`): the stored conversation, trimmed when the
last known prompt-token count exceeds 25000. -/
def chatSendMessages (conversation : List Msg) (lastPromptTokens : Option Nat) : List Msg :=
  match lastPromptTokens with
  | some t => if t > 25000 then TrimContext conversation else conversation
  | none => conversation

/-- One successful `Chat` loop iteration: the pair of (history sent to the
model, stored conversation afterwards).  On success the assistant message is
appended to `a.Conversation` itself, which is never reassigned on this
path. -/
def chatStepSuccess (conversation : List Msg) (lastPromptTokens : Option Nat)
    (assistant : Msg) : List Msg × List Msg :=
  (chatSendMessages conversation lastPromptTokens, conversation ++ [assistant])

/-- The context-overflow retry path of `Chat` (lines 295-300): the history
is re-trimmed and `a.Conversation` is reassigned to the trimmed copy. -/
def chatContextOverflowRetry (conversation : List Msg) : List Msg × List Msg :=
  (TrimContext conversation, TrimContext conversation)

/-- A model-issued tool call (id and tool name; arguments are immaterial to
the conversation bookkeeping claims). -/
structure ToolCall where
  id : Str
  name : Str
deriving DecidableEq, Repr

/-- `executeToolBasedOnResponse`: dispatch on the operator's confirmation
answer.  `toolExec`/`bgExec` abstract the registered tool executors and
`BashCommandBackground` (their result strings).  Returns the updated
conversation, the result string, the `shouldContinue` flag, and the ids of
the calls actually executed.  The interrupt branch with a non-empty
instruction appends the tool result and the new user message itself and
returns `shouldContinue = false` (the source comments "Return early to skip
adding the result again"). -/
def executeToolBasedOnResponse (toolExec bgExec : ToolCall → Str)
    (conversation : List Msg) (response : Str) (toolCall : ToolCall)
    (interruptInput : Str) (isLongRunning : Bool) :
    List Msg × Str × Bool × List Str :=
  if response = [] || response = ("y").toList || response = ("yes").toList then
    (conversation, toolExec toolCall, true, [toolCall.id])
  else if response = ("s").toList || response = ("skip").toList then
    (conversation, ("Tool execution skipped by user").toList, true, [])
  else if response = ("b").toList || response = ("background").toList then
    if isLongRunning then (conversation, bgExec toolCall, true, [toolCall.id])
    else
      (conversation,
       ("Background execution only available for long-running commands").toList, true, [])
  else if response = ("i").toList || response = ("interrupt").toList then
    let userInstruction := trimSpace interruptInput
    if userInstruction ≠ [] then
      let result :=
        ("Tool execution interrupted by user. New instruction: ").toList ++ userInstruction
      (conversation ++
        [Msg.mk Role.tool result toolCall.id, Msg.mk Role.user userInstruction []],
       result, false, [])
    else
      (conversation,
       ("Tool execution interrupted but no alternative instruction provided").toList,
       true, [])
  else
    (conversation, ("Tool execution denied by user").toList, true, [])

/-- `handleToolCalls` (the confirmation/dispatch/record loop, lines 489-503
of `agent.go`): each batch entry carries the call, the operator's response,
the interrupt instruction read when asked, and the long-running flag.  After
each `executeToolBasedOnResponse` the result is appended as a tool-role
message (unconditionally), and the loop breaks when `shouldContinue` is
false.  (The JSON-parse and folder-permission branches are resolved into the
given response, which is exactly how they feed this loop.) -/
def handleToolCalls (toolExec bgExec : ToolCall → Str) (conversation : List Msg) :
    List (ToolCall × Str × Str × Bool) → List Msg × List Str
  | [] => (conversation, [])
  | (tc, response, interruptInput, isLongRunning) :: rest =>
    let step :=
      executeToolBasedOnResponse toolExec bgExec conversation response tc
        interruptInput isLongRunning
    let conv2 := step.1 ++ [Msg.mk Role.tool step.2.1 tc.id]
    if step.2.2.1 then
      let next := handleToolCalls toolExec bgExec conv2 rest
      (next.1, step.2.2.2 ++ next.2)
    else (conv2, step.2.2.2)

/-- An absolute, cleaned filesystem path, as its list of name segments
(so `/a/b` is `[a, b]` and the root is `[]`). -/
abbrev FsPath := List Str

/-- `filepath.Rel(base, targ)` for cleaned absolute paths, as the relative
path string: `..` per remaining base segment, then the remaining target
segments, joined with `/`; `.` when both remainders are empty. -/
def goRel (base targ : FsPath) : Str :=
  let c := commonPrefixLen base targ
  let segs := List.replicate (base.length - c) (("..").toList) ++ targ.drop c
  if segs.isEmpty then ['.'] else List.intercalate ['/'] segs

/-- `IsFolderApproved`: true on an exact member of the approved set, or when
the relative path from some approved folder neither starts with the string
`..` nor equals `.` (the path arguments are assumed already absolute and
clean, which is what `filepath.Abs` establishes). -/
def IsFolderApproved (approvedFolders : List FsPath) (absPath : FsPath) : Bool :=
  approvedFolders.contains absPath ||
  approvedFolders.any (fun approvedFolder =>
    let rel := goRel approvedFolder absPath
    !(("..").toList.isPrefixOf rel) && !(rel == ['.']))

/-- The filesystem, as an association list from path strings to contents. -/
abbrev FS := List (Str × Str)

/-- `os.ReadFile`. -/
def fsRead (fs : FS) (path : Str) : Option Str :=
  (fs.find? (fun e => e.1 == path)).map (fun e => e.2)

/-- `os.WriteFile` (create or overwrite). -/
def fsWrite (fs : FS) (path content : Str) : FS :=
  if fs.any (fun e => e.1 == path) then
    fs.map (fun e => if e.1 == path then (path, content) else e)
  else fs ++ [(path, content)]

/-- `performIncrementalEdit`: empty `oldString` writes `newString` as a new
file; otherwise read the file, run `ReplaceInContent`, and only on success
write the produced content back.  Returns the filesystem after the call and
the outcome (the Go function's success value is a rendered diff of the
change; we return the written content, which determines it). -/
def performIncrementalEdit (fs : FS) (path oldString newString : Str)
    (replaceAll : Bool) : FS × Except Str Str :=
  if oldString = [] then
    (fsWrite fs path newString, Except.ok newString)
  else
    match fsRead fs path with
    | none => (fs, Except.error (("error reading file").toList))
    | some content =>
      match ReplaceInContent content oldString newString replaceAll with
      | Except.error e => (fs, Except.error (("replacement failed: ").toList ++ e))
      | Except.ok newContent => (fsWrite fs path newContent, Except.ok newContent)

/-- Is the rendered line an unchanged context line? -/
def isCtxLine : DiffLine → Bool
  | DiffLine.ctx _ _ _ => true
  | _ => false

/-- Is the rendered line an added line? -/
def isAddLine : DiffLine → Bool
  | DiffLine.add _ _ => true
  | _ => false

/-- Is the rendered line a removed line? -/
def isDelLine : DiffLine → Bool
  | DiffLine.del _ _ => true
  | _ => false

/-- Is the rendered line an ellipsis marker? -/
def isEllipsisLine : DiffLine → Bool
  | DiffLine.ellipsisMark => true
  | _ => false

/-- Number of unchanged context lines in a rendered diff. -/
def countCtx (l : List DiffLine) : Nat := (l.filter isCtxLine).length

/-- Number of added lines in a rendered diff. -/
def countAdd (l : List DiffLine) : Nat := (l.filter isAddLine).length

/-- Number of removed lines in a rendered diff. -/
def countDel (l : List DiffLine) : Nat := (l.filter isDelLine).length

/-- Number of ellipsis markers in a rendered diff. -/
def countEllipsis (l : List DiffLine) : Nat := (l.filter isEllipsisLine).length

/-- The trimming behaviour claimed by the spec sentence, written from the
spec's words for comparison with `TrimContext`: the system messages followed
by the most recent K = 6 *non-system* messages of the input. -/
def TrimContextClaimed (messages : List Msg) : List Msg :=
  if messages.length ≤ 3 then messages
  else
    let nonSystem := messages.filter (fun m => !(m.role == Role.system))
    messages.filter (fun m => m.role == Role.system) ++
      nonSystem.drop (nonSystem.length - 6)

/-- Shorthand for building a message without a tool-call id. -/
def mkMsg (r : Role) (s : String) : Msg := Msg.mk r s.toList []

/-- A 9-message conversation with a system message sitting inside the
most-recent-6 window (used to separate `TrimContext` from the claimed
behaviour). -/
def exMessages : List Msg :=
  [mkMsg Role.user "u0", mkMsg Role.user "u1", mkMsg Role.user "u2",
   mkMsg Role.system "s3", mkMsg Role.user "u4", mkMsg Role.user "u5",
   mkMsg Role.user "u6", mkMsg Role.user "u7", mkMsg Role.user "u8"]

/-- A stub tool executor (stands for the registered tool functions; only
its result strings matter to the conversation bookkeeping). -/
def toolExecStub : ToolCall → Str := fun tc => ("ran ").toList ++ tc.name

/-- First tool call of the interrupt example batch. -/
def exCall1 : ToolCall := ToolCall.mk (("id1").toList) (("bash_command").toList)

/-- Second tool call of the interrupt example batch. -/
def exCall2 : ToolCall := ToolCall.mk (("id2").toList) (("read_file").toList)

/-- A two-call batch in which the operator answers `i` with instruction
`do X` at call 1 and would approve call 2. -/
def exInterruptBatch : List (ToolCall × Str × Str × Bool) :=
  [(exCall1, ("i").toList, ("do X").toList, false),
   (exCall2, [], [], false)]

/-- The interrupt result string produced for instruction `do X`. -/
def exInterruptResult : Str :=
  ("Tool execution interrupted by user. New instruction: do X").toList

/-- Segment path `/a/b`. -/
def abPath : FsPath := [("a").toList, ("b").toList]

/-- Segment path `/a/c`. -/
def acPath : FsPath := [("a").toList, ("c").toList]

/-- Line list of the 100-line example old file: 50 `p` lines, one `a`
line, 49 `s` lines. -/
def exOldLines : List Str := List.replicate 50 ['p'] ++ ['a'] :: List.replicate 49 ['s']

/-- Line list of the 100-line example new file: same, with the middle
line changed to `b`. -/
def exNewLines : List Str := List.replicate 50 ['p'] ++ ['b'] :: List.replicate 49 ['s']

/-- The 100-line example old content. -/
def exOldContent : Str := joinLines exOldLines

/-- The 100-line example new content. -/
def exNewContent : Str := joinLines exNewLines

/-- An example filesystem with one file `f` whose content `abab` holds two
occurrences of `ab`. -/
def exFS : FS := [((("f").toList), (("abab").toList))]

/-- `commonPrefixLen` distributes over a shared prefix. -/
theorem commonPrefixLen_append {α : Type} [DecidableEq α] (l t₁ t₂ : List α) :
    commonPrefixLen (l ++ t₁) (l ++ t₂) = l.length + commonPrefixLen t₁ t₂ := by
  induction l with
  | nil => simp [commonPrefixLen]
  | cons a as ih => simp [commonPrefixLen, ih]; omega

/-- `commonPrefixLen` of a list with an extension of itself is its length. -/
theorem commonPrefixLen_self_append {α : Type} [DecidableEq α] (l t : List α) :
    commonPrefixLen l (l ++ t) = l.length := by
  have h := commonPrefixLen_append l [] t
  simpa using h

/-- Unfolding lemma: `intercalate` over at least two pieces. -/
theorem intercalate_cons₂ (sep x y : Str) (l : List Str) :
    List.intercalate sep (x :: y :: l) = x ++ sep ++ List.intercalate sep (y :: l) := by
  induction l with
  | nil => simp [List.intercalate, List.intersperse]
  | cons a l ih => simp [List.intercalate, List.intersperse] at *

/-- Unfolding lemma: `intercalate` over one piece. -/
theorem intercalate_one (sep x : Str) : List.intercalate sep [x] = x := by
  simp [List.intercalate]

/-- The relative-path string `c/...` starts with `..` exactly when its
first segment does. -/
theorem dotdot_isPrefixOf_intercalate (c : Str) (rest : List Str) :
    ("..").toList.isPrefixOf (List.intercalate ['/'] (c :: rest)) =
      ("..").toList.isPrefixOf c := by
  cases rest with
  | nil => rw [intercalate_one]
  | cons y l =>
    rw [intercalate_cons₂]
    match c with
    | [] => simp [List.isPrefixOf]
    | [d] => simp [List.isPrefixOf]
    | d₁ :: d₂ :: c' => simp [List.isPrefixOf]

/-- The relative-path string `c/...` equals `.` only when it is the single
segment `.`. -/
theorem intercalate_eq_dot (c : Str) (rest : List Str)
    (hc : c ≠ ("." ).toList) :
    (List.intercalate ['/'] (c :: rest) == ['.']) = false := by
  rw [beq_eq_false_iff_ne]
  cases rest with
  | nil => rw [intercalate_one]; simpa using hc
  | cons y l =>
    rw [intercalate_cons₂]
    match c with
    | [] => simp
    | [d] => simp
    | d₁ :: d₂ :: c' => simp

/-- C4 counterexample: with the approved set `{/a/b}` (which contains
`/a/b`), the descendant `/a/b/..x` — a legal directory name — is denied,
because the code tests `strings.HasPrefix(rel, "..")` on the textual
relative path; the claim asserts every descendant is granted. -/
theorem c4_dotdot_descendant_denied_cex :
    IsFolderApproved [abPath] (abPath ++ [("..x").toList]) = false := by
  decide

/-- C4 (amended): for every approved-folder set containing `/a/b`, the
check grants `/a/b` itself and every descendant whose first path segment
below `/a/b` does not textually begin with `..` (such as `/a/b/c`); when
`/a/b` is the only approved entry, the sibling `/a/c` and the strict
ancestors `/a` and `/` are denied.  (Descendants whose next segment itself
starts with `..` are denied by the textual prefix test — see the
counterexample.) -/
theorem c4_folder_approval (L : List FsPath) (hab : abPath ∈ L)
    (c : Str) (rest : List Str)
    (hc1 : ("..").toList.isPrefixOf c = false)
    (hc2 : c ≠ ("." ).toList) :
    IsFolderApproved L abPath = true ∧
    IsFolderApproved L (abPath ++ c :: rest) = true ∧
    IsFolderApproved [abPath] acPath = false ∧
    IsFolderApproved [abPath] [] = false ∧
    IsFolderApproved [abPath] [("a").toList] = false := by
  refine ⟨?_, ?_, by decide, by decide, by decide⟩
  · unfold IsFolderApproved
    have h : L.contains abPath = true := by
      simpa [List.contains] using List.elem_iff.mpr hab
    rw [h, Bool.true_or]
  · unfold IsFolderApproved
    rw [Bool.or_eq_true]
    right
    rw [List.any_eq_true]
    refine ⟨abPath, hab, ?_⟩
    have hrel : goRel abPath (abPath ++ c :: rest) = List.intercalate ['/'] (c :: rest) := by
      simp [goRel, commonPrefixLen_self_append, List.drop_left]
    simp only [hrel, dotdot_isPrefixOf_intercalate, hc1,
      intercalate_eq_dot c rest hc2, Bool.not_false, Bool.and_self]

/-- C4 witness: the amended statement at the singleton approved set
`{/a/b}` and the descendant `/a/b/c`. -/
theorem c4_folder_approval_witness :
    (abPath ∈ [abPath] ∧ ("..").toList.isPrefixOf (("c").toList) = false ∧
      ("c").toList ≠ ("." ).toList) ∧
    (IsFolderApproved [abPath] abPath = true ∧
     IsFolderApproved [abPath] (abPath ++ ("c").toList :: []) = true ∧
     IsFolderApproved [abPath] acPath = false ∧
     IsFolderApproved [abPath] [] = false ∧
     IsFolderApproved [abPath] [("a").toList] = false) :=
  ⟨⟨by decide, by decide, by decide⟩,
   c4_folder_approval [abPath] (by decide) (("c").toList) [] (by decide) (by decide)⟩

/-- C10: whenever `ReplaceInContent` fails (no match, ambiguous match, or
no-op), `performIncrementalEdit` with a non-empty `oldString` returns the
error and performs no write: the filesystem is unchanged. -/
theorem c10_failed_edit_no_write (fs : FS) (path oldString newString : Str)
    (replaceAll : Bool) (hne : oldString ≠ []) (content : Str)
    (hread : fsRead fs path = some content) (e : Str)
    (herr : ReplaceInContent content oldString newString replaceAll = Except.error e) :
    (performIncrementalEdit fs path oldString newString replaceAll).1 = fs ∧
    (performIncrementalEdit fs path oldString newString replaceAll).2 =
      Except.error ((("replacement failed: ").toList) ++ e) := by
  simp [performIncrementalEdit, hne, hread, herr]

/-- C10 witness: an ambiguous edit (`ab` occurs twice in `abab`,
`replaceAll = false`) on the example filesystem leaves it unchanged. -/
theorem c10_failed_edit_no_write_witness :
    ((("ab").toList ≠ ([] : Str)) ∧
      fsRead exFS (("f").toList) = some (("abab").toList) ∧
      ReplaceInContent (("abab").toList) (("ab").toList) (("X").toList) false =
        Except.error
          (("oldString not found in content or multiple ambiguous matches found").toList)) ∧
    ((performIncrementalEdit exFS (("f").toList) (("ab").toList) (("X").toList) false).1 =
        exFS ∧
      (performIncrementalEdit exFS (("f").toList) (("ab").toList) (("X").toList) false).2 =
        Except.error ((("replacement failed: ").toList) ++
          ("oldString not found in content or multiple ambiguous matches found").toList)) :=
  ⟨⟨by decide, by decide, by decide⟩,
   c10_failed_edit_no_write exFS (("f").toList) (("ab").toList) (("X").toList) false
     (by decide) (("abab").toList) (by decide) _ (by decide)⟩

/-- Unfolding `occPositions` over a cons cell. -/
theorem occPositions_cons (c : Char) (rest pat : Str) :
    occPositions (c :: rest) pat =
      (if pat.isPrefixOf (c :: rest) then [0] else []) ++
        (occPositions rest pat).map Nat.succ := by
  have h1 : occPositions (c :: rest) pat =
      List.filter (fun i => pat.isPrefixOf ((c :: rest).drop i))
        (List.range ((rest.length + 1) + 1)) := rfl
  rw [h1, List.range_succ_eq_map, List.filter_cons, List.filter_map]
  have h2 : ((fun i => pat.isPrefixOf ((c :: rest).drop i)) ∘ Nat.succ) =
      fun i => pat.isPrefixOf (rest.drop i) := by
    funext i
    rfl
  rw [h2]
  by_cases hp : pat.isPrefixOf (c :: rest) = true
  · simp only [List.drop_zero, hp, if_true]
    rfl
  · have hp' := Bool.eq_false_iff.mpr hp
    simp only [List.drop_zero, hp', Bool.false_eq_true, if_false]
    rfl

/-- Membership in `occPositions`. -/
theorem mem_occPositions {s pat : Str} {i : Nat} :
    i ∈ occPositions s pat ↔ i < s.length + 1 ∧ pat.isPrefixOf (s.drop i) = true := by
  simp [occPositions, List.mem_filter, List.mem_range]

/-- Any occurrence position makes `goContains` true. -/
theorem goContains_of_mem_occPositions {s pat : Str} {i : Nat}
    (h : i ∈ occPositions s pat) : goContains s pat = true := by
  rcases mem_occPositions.mp h with ⟨h1, h2⟩
  exact List.any_eq_true.mpr ⟨i, List.mem_range.mpr h1, h2⟩

/-- `goContains` is true whenever the occurrence list is nonempty. -/
theorem goContains_of_ne_nil {s pat : Str} (h : occPositions s pat ≠ []) :
    goContains s pat = true := by
  obtain ⟨i, hi⟩ := List.exists_mem_of_ne_nil _ h
  exact goContains_of_mem_occPositions hi

/-- The occurrence positions are strictly increasing. -/
theorem occPositions_pairwise (s pat : Str) :
    (occPositions s pat).Pairwise (· < ·) :=
  (List.pairwise_lt_range _).filter _

/-- For a strictly increasing two-element list, head and last differ. -/
theorem head?_beq_getLast?_eq_false {l : List Nat}
    (hp : l.Pairwise (· < ·)) (h : l.length = 2) :
    (l.head? == l.getLast?) = false := by
  rcases l with _ | ⟨a, _ | ⟨b, _ | ⟨c, l⟩⟩⟩ <;> simp_all
  omega

/-- With exactly two occurrences, the first and last indices differ. -/
theorem goIndex_beq_goLastIndex_of_two {s pat : Str}
    (h : (occPositions s pat).length = 2) :
    (goIndex s pat == goLastIndex s pat) = false :=
  head?_beq_getLast?_eq_false (occPositions_pairwise s pat) h

/-- With exactly one occurrence, the first and last indices coincide. -/
theorem goIndex_beq_goLastIndex_of_one {s pat : Str}
    (h : (occPositions s pat).length = 1) :
    (goIndex s pat == goLastIndex s pat) = true := by
  rcases hl : occPositions s pat with _ | ⟨a, _ | ⟨b, l⟩⟩ <;> rw [hl] at h <;> simp_all
  simp [goIndex, goLastIndex, hl]

/-- With `replaceAll`, the first candidate is immediately usable. -/
theorem findUsableMatch_true (content m : Str) (rest : List Str) :
    findUsableMatch content true (m :: rest) = some m := by
  simp [findUsableMatch]

/-- Without `replaceAll`, a returned candidate passed the uniqueness test. -/
theorem findUsableMatch_false_unique {content m : Str} :
    ∀ {l : List Str}, findUsableMatch content false l = some m →
      (goIndex content m == goLastIndex content m) = true := by
  intro l
  induction l with
  | nil => intro h; simp [findUsableMatch] at h
  | cons x xs ih =>
    intro h
    rw [findUsableMatch] at h
    simp only [Bool.false_or] at h
    by_cases hx : (goIndex content x == goLastIndex content x) = true
    · rw [if_pos hx] at h
      obtain rfl : x = m := by injection h
      exact hx
    · rw [if_neg hx] at h
      exact ih h

/-- Shifting an occurrence in a suffix to an occurrence in the whole. -/
theorem occPositions_drop_shift {s pat : Str} {n q : Nat} (hn : n ≤ s.length)
    (hq : q ∈ occPositions (s.drop n) pat) : n + q ∈ occPositions s pat := by
  rcases mem_occPositions.mp hq with ⟨h1, h2⟩
  apply mem_occPositions.mpr
  constructor
  · rw [List.length_drop] at h1
    omega
  · rw [← List.drop_drop]
    exact h2

/-- A string with no occurrence of `pat` is left unchanged by
`goReplaceAll`. -/
theorem goReplaceAll_of_no_occurrence {s pat new : Str}
    (h : occPositions s pat = []) : goReplaceAll s pat new = s := by
  induction s with
  | nil =>
    have hpre : pat.isPrefixOf ([] : Str) = false := by
      by_contra hc
      have h0 : (0 : Nat) ∈ occPositions ([] : Str) pat :=
        mem_occPositions.mpr ⟨by simp, by simpa using (Bool.of_not_eq_false hc)⟩
      rw [h] at h0
      simp at h0
    have hpat : pat ≠ [] := by
      intro he
      subst he
      simp [List.isPrefixOf] at hpre
    rw [goReplaceAll, if_neg hpat]
  | cons c rest ih =>
    rw [occPositions_cons] at h
    rcases List.append_eq_nil.mp h with ⟨h1, h2⟩
    have hpre : pat.isPrefixOf (c :: rest) = false := by
      by_cases hb : pat.isPrefixOf (c :: rest) = true
      · rw [if_pos hb] at h1; simp at h1
      · exact Bool.eq_false_iff.mpr hb
    have hrest : occPositions rest pat = [] := List.map_eq_nil_iff.mp h2
    have hpat : pat ≠ [] := by
      intro he
      subst he
      simp [List.isPrefixOf] at hpre
    rw [goReplaceAll, dif_neg (fun hc => by rw [hpre] at hc; exact Bool.false_ne_true hc.2),
      if_neg hpat, ih hrest]

/-- When `pat` occurs exactly once, replacing all occurrences and replacing
the first occurrence coincide. -/
theorem goReplaceAll_eq_goReplaceOnce_of_unique {s pat new : Str}
    (h : (occPositions s pat).length = 1) :
    goReplaceAll s pat new = goReplaceOnce s pat new := by
  induction s with
  | nil =>
    have hpat : pat = [] := by
      by_contra hp
      have hpre : pat.isPrefixOf ([] : Str) = false := by
        cases pat with
        | nil => exact absurd rfl hp
        | cons a as => simp [List.isPrefixOf]
      have : occPositions ([] : Str) pat = [] := by
        simp [occPositions, List.range, List.range.loop, List.filter, hpre]
      rw [this] at h
      simp at h
    subst hpat
    rw [goReplaceAll, if_pos rfl, goReplaceOnce]
    simp [List.isPrefixOf]
  | cons c rest ih =>
    by_cases hpre : pat.isPrefixOf (c :: rest) = true
    · have hpat : pat ≠ [] := by
        intro he
        subst he
        have hall : occPositions (c :: rest) ([] : Str) =
            List.range ((c :: rest).length + 1) := by
          simp [occPositions, List.isPrefixOf]
        rw [hall] at h
        simp at h
      rw [occPositions_cons, if_pos hpre] at h
      have hrest : occPositions rest pat = [] := by
        rw [List.length_append, List.length_map] at h
        exact List.eq_nil_of_length_eq_zero (by simpa using h)
      have hplen : pat.length ≤ (c :: rest).length :=
        (List.isPrefixOf_iff_prefix.mp hpre).length_le
      have hdrop : occPositions ((c :: rest).drop pat.length) pat = [] := by
        by_contra hd
        obtain ⟨q, hq⟩ := List.exists_mem_of_ne_nil _ hd
        have hmem : pat.length + q ∈ occPositions (c :: rest) pat :=
          occPositions_drop_shift hplen hq
        rw [occPositions_cons, if_pos hpre, hrest] at hmem
        simp only [List.map_nil, List.append_nil, List.mem_singleton] at hmem
        have hq0 : pat.length = 0 := by omega
        exact hpat (List.eq_nil_of_length_eq_zero hq0)
      rw [goReplaceAll, dif_pos ⟨hpat, hpre⟩, goReplaceAll_of_no_occurrence hdrop,
        goReplaceOnce, if_pos hpre]
    · have hpre' : pat.isPrefixOf (c :: rest) = false := Bool.eq_false_iff.mpr hpre
      rw [occPositions_cons, if_neg hpre] at h
      have hr : (occPositions rest pat).length = 1 := by simpa using h
      rw [goReplaceAll, dif_neg (fun hc => by rw [hpre'] at hc; exact Bool.false_ne_true hc.2),
        if_neg (fun he => by subst he; simp [List.isPrefixOf] at hpre'),
        goReplaceOnce, if_neg (by simp [hpre']), ih hr]

/-- `allMatches` starts with the literal when it occurs in the content. -/
theorem allMatches_cons_of_contains {content oldString : Str}
    (h : goContains content oldString = true) :
    ∃ tail, allMatches content oldString = oldString :: tail :=
  ⟨LineTrimmedReplacer.FindMatches content oldString ++
      (WhitespaceNormalizedReplacer.FindMatches content oldString ++
        IndentationFlexibleReplacer.FindMatches content oldString),
   by simp [allMatches, SimpleReplacer.FindMatches, h]⟩

/-- `commonPrefixLen` of lists with distinct heads is zero. -/
theorem commonPrefixLen_cons_ne {α : Type} [DecidableEq α] {x y : α} (u v : List α)
    (h : x ≠ y) : commonPrefixLen (x :: u) (y :: v) = 0 := by
  simp [commonPrefixLen, h]

/-- `countCtx` distributes over append. -/
theorem countCtx_append (l1 l2 : List DiffLine) :
    countCtx (l1 ++ l2) = countCtx l1 + countCtx l2 := by
  simp [countCtx, List.filter_append]

/-- `countEllipsis` distributes over append. -/
theorem countEllipsis_append (l1 l2 : List DiffLine) :
    countEllipsis (l1 ++ l2) = countEllipsis l1 + countEllipsis l2 := by
  simp [countEllipsis, List.filter_append]

/-- Every line of a `ctxRange` is a context line. -/
theorem countCtx_ctxRange (ol : List Str) (i1 j1 lo hi : Nat) :
    countCtx (ctxRange ol i1 j1 lo hi) = hi - lo := by
  have h : (isCtxLine ∘ ctxLine ol i1 j1) = fun _ => true := by funext i; rfl
  simp [countCtx, ctxRange, List.filter_map, h, List.length_range']

/-- A `ctxRange` holds no ellipsis marker. -/
theorem countEllipsis_ctxRange (ol : List Str) (i1 j1 lo hi : Nat) :
    countEllipsis (ctxRange ol i1 j1 lo hi) = 0 := by
  have h : (isEllipsisLine ∘ ctxLine ol i1 j1) = fun _ => false := by funext i; rfl
  simp [countEllipsis, ctxRange, List.filter_map, h]

/-- A `delRange` holds no context line. -/
theorem countCtx_delRange (ol : List Str) (lo hi : Nat) :
    countCtx (delRange ol lo hi) = 0 := by
  have h : (isCtxLine ∘ fun i => DiffLine.del (i + 1) (ol.getD i [])) = fun _ => false := by
    funext i; rfl
  simp [countCtx, delRange, List.filter_map, h]
  intro a _ _
  rfl

/-- A `delRange` holds no ellipsis marker. -/
theorem countEllipsis_delRange (ol : List Str) (lo hi : Nat) :
    countEllipsis (delRange ol lo hi) = 0 := by
  have h : (isEllipsisLine ∘ fun i => DiffLine.del (i + 1) (ol.getD i [])) =
      fun _ => false := by
    funext i; rfl
  simp [countEllipsis, delRange, List.filter_map, h]
  intro a _ _
  rfl

/-- An `addRange` holds no context line. -/
theorem countCtx_addRange (nl : List Str) (lo hi : Nat) :
    countCtx (addRange nl lo hi) = 0 := by
  have h : (isCtxLine ∘ fun j => DiffLine.add (j + 1) (nl.getD j [])) = fun _ => false := by
    funext j; rfl
  simp [countCtx, addRange, List.filter_map, h]
  intro a _ _
  rfl

/-- An `addRange` holds no ellipsis marker. -/
theorem countEllipsis_addRange (nl : List Str) (lo hi : Nat) :
    countEllipsis (addRange nl lo hi) = 0 := by
  have h : (isEllipsisLine ∘ fun j => DiffLine.add (j + 1) (nl.getD j [])) =
      fun _ => false := by
    funext j; rfl
  simp [countEllipsis, addRange, List.filter_map, h]
  intro a _ _
  rfl

/-- The edit script computed for two line lists that differ in exactly one
(interior) position: one equal span, one single-line replace, one equal
span. -/
theorem getOpCodes_single_change (P S : List Str) (x y : Str) (hxy : x ≠ y)
    (hP : 0 < P.length) (hS : 0 < S.length) :
    getOpCodes (P ++ x :: S) (P ++ y :: S) =
      [OpCode.mk OpTag.e 0 P.length 0 P.length,
       OpCode.mk OpTag.r P.length (P.length + 1) P.length (P.length + 1),
       OpCode.mk OpTag.e (P.length + 1) (P.length + 1 + S.length)
         (P.length + 1) (P.length + 1 + S.length)] := by
  have hp' : commonPrefixLen (P ++ x :: S) (P ++ y :: S) = P.length := by
    rw [commonPrefixLen_append, commonPrefixLen_cons_ne S S hxy]
    omega
  have hdropA : (P ++ x :: S).drop P.length = x :: S := List.drop_left P (x :: S)
  have hdropB : (P ++ y :: S).drop P.length = y :: S := List.drop_left P (y :: S)
  have hs' : commonPrefixLen (x :: S).reverse (y :: S).reverse = S.length := by
    rw [List.reverse_cons, List.reverse_cons,
      commonPrefixLen_append, commonPrefixLen_cons_ne [] [] hxy]
    simp
  have hlA : (P ++ x :: S).length = P.length + S.length + 1 := by
    simp [List.length_append]
    omega
  have hlB : (P ++ y :: S).length = P.length + S.length + 1 := by
    simp [List.length_append]
    omega
  simp only [getOpCodes]
  rw [hp', hdropA, hdropB, hs', hlA, hlB]
  rw [if_pos hP]
  have hmid : P.length < P.length + S.length + 1 - S.length := by omega
  rw [if_pos ⟨hmid, hmid⟩, if_pos hS]
  have h1 : P.length + S.length + 1 - S.length = P.length + 1 := by omega
  rw [h1]
  have h2 : P.length + 1 + S.length = P.length + S.length + 1 := by omega
  rw [h2]
  rfl

/-- C6: for 100-line contents that differ in exactly one line in the middle
of the file (so that the edit script is one replace region), the rendered
diff contains at most 2×CONTEXT_LINES+1 = 7 unchanged context lines (in
fact 6) plus exactly two ellipsis markers (one leading, one trailing):
output size scales with the number of changed regions, not file size. -/
theorem c6_single_middle_change (oldContent newContent filename : Str)
    (P S : List Str) (x y : Str)
    (hOld : splitLines oldContent = P ++ x :: S)
    (hNew : splitLines newContent = P ++ y :: S)
    (hxy : x ≠ y) (hP : 4 ≤ P.length) (hS : 4 ≤ S.length)
    (hLen : P.length + S.length = 99) :
    countCtx (GenerateDiff oldContent newContent filename) ≤ 2 * contextLines + 1 ∧
    countEllipsis (GenerateDiff oldContent newContent filename) = 2 := by
  have hneq : oldContent ≠ newContent := by
    intro h
    rw [h, hNew] at hOld
    have hcancel := List.append_cancel_left hOld
    exact hxy ((List.cons.injEq _ _ _ _ ▸ hcancel).1.symm)
  have hops := getOpCodes_single_change P S x y hxy (by omega) (by omega)
  have hbeq1 : (OpTag.e == OpTag.e) = true := by decide
  have hbeq2 : (OpTag.r == OpTag.e) = false := by decide
  have hfl : firstLineShown
      [OpCode.mk OpTag.e 0 P.length 0 P.length,
       OpCode.mk OpTag.r P.length (P.length + 1) P.length (P.length + 1),
       OpCode.mk OpTag.e (P.length + 1) (P.length + 1 + S.length)
         (P.length + 1) (P.length + 1 + S.length)] ((P ++ x :: S).length) =
      P.length - contextLines := by
    simp [firstLineShown, List.find?, hbeq1, hbeq2]
  have hll : lastLineShown
      [OpCode.mk OpTag.e 0 P.length 0 P.length,
       OpCode.mk OpTag.r P.length (P.length + 1) P.length (P.length + 1),
       OpCode.mk OpTag.e (P.length + 1) (P.length + 1 + S.length)
         (P.length + 1) (P.length + 1 + S.length)] ((P ++ x :: S).length) =
      Int.ofNat (P.length + 3) := by
    have hlA : (P ++ x :: S).length = P.length + S.length + 1 := by
      simp [List.length_append]
      omega
    simp [lastLineShown, List.find?, hbeq1, hbeq2, hlA, contextLines]
    omega
  simp only [GenerateDiff]
  rw [if_neg hneq, hOld, hNew, hops, hfl, hll]
  rw [if_pos (show P.length - contextLines > 0 by simp [contextLines]; omega)]
  have hlA : (P ++ x :: S).length = P.length + S.length + 1 := by
    simp [List.length_append]
    omega
  rw [if_pos (show Int.ofNat (P.length + 3) < ((P ++ x :: S).length : Int) - 1 by
    rw [hlA]
    have hk : P.length ≤ 95 := by omega
    simp [Int.ofNat]
    omega)]
  have hbody : renderOpcodesFrom (P ++ x :: S) (P ++ y :: S)
      ([OpCode.mk OpTag.e 0 P.length 0 P.length,
        OpCode.mk OpTag.r P.length (P.length + 1) P.length (P.length + 1),
        OpCode.mk OpTag.e (P.length + 1) (P.length + 1 + S.length)
          (P.length + 1) (P.length + 1 + S.length)]).length 0
      [OpCode.mk OpTag.e 0 P.length 0 P.length,
       OpCode.mk OpTag.r P.length (P.length + 1) P.length (P.length + 1),
       OpCode.mk OpTag.e (P.length + 1) (P.length + 1 + S.length)
         (P.length + 1) (P.length + 1 + S.length)] =
      ctxRange (P ++ x :: S) 0 0 (max (P.length - contextLines) 0) P.length ++
      ((delRange (P ++ x :: S) P.length (P.length + 1) ++
        addRange (P ++ y :: S) P.length (P.length + 1)) ++
       (ctxRange (P ++ x :: S) (P.length + 1) (P.length + 1) (P.length + 1)
          (min (P.length + 1 + contextLines) (P.length + 1 + S.length)) ++ [])) := by
    simp [renderOpcodesFrom, renderOpcode]
  rw [hbody]
  have hc3 : contextLines = 3 := rfl
  constructor
  · simp only [countCtx_append, countCtx_ctxRange, countCtx_delRange, countCtx_addRange,
      List.append_nil, Nat.max_zero]
    have hh : countCtx [DiffLine.header filename, DiffLine.rule] = 0 := rfl
    have he : countCtx [DiffLine.ellipsisMark] = 0 := rfl
    rw [hh, he]
    have hmin : (P.length + 1 + contextLines) ⊓ (P.length + 1 + S.length) =
        P.length + 1 + contextLines := by
      rw [hc3]
      exact Nat.min_eq_left (by omega)
    rw [hmin, hc3]
    omega
  · simp only [countEllipsis_append, countEllipsis_ctxRange, countEllipsis_delRange,
      countEllipsis_addRange, List.append_nil]
    have hh : countEllipsis [DiffLine.header filename, DiffLine.rule] = 0 := rfl
    have he : countEllipsis [DiffLine.ellipsisMark] = 1 := rfl
    rw [hh, he]

/-- C6 witness: the 100-line example contents, which differ exactly in
line 51 (`a` versus `b`). -/
theorem c6_single_middle_change_witness :
    (splitLines exOldContent = List.replicate 50 ['p'] ++ ['a'] :: List.replicate 49 ['s'] ∧
     splitLines exNewContent = List.replicate 50 ['p'] ++ ['b'] :: List.replicate 49 ['s'] ∧
     (['a'] : Str) ≠ ['b'] ∧
     4 ≤ (List.replicate 50 (['p'] : Str)).length ∧
     4 ≤ (List.replicate 49 (['s'] : Str)).length ∧
     (List.replicate 50 (['p'] : Str)).length +
       (List.replicate 49 (['s'] : Str)).length = 99) ∧
    (countCtx (GenerateDiff exOldContent exNewContent (("f").toList)) ≤
        2 * contextLines + 1 ∧
      countEllipsis (GenerateDiff exOldContent exNewContent (("f").toList)) = 2) :=
  ⟨⟨by decide, by decide, by decide, by decide, by decide, by decide⟩,
   c6_single_middle_change exOldContent exNewContent (("f").toList)
     (List.replicate 50 ['p']) (List.replicate 49 ['s']) ['a'] ['b']
     (by decide) (by decide) (by decide) (by decide) (by decide) (by decide)⟩

/-- C9: when the search text occurs as a literal substring exactly once and
differs from the replacement, `ReplaceInContent` succeeds via the
exact-substring strategy (strategy 1, whose candidate heads the strategy
scan) and returns the content with that single occurrence replaced; no
later strategy is consulted, and the result is the same for both
`replaceAll` values. -/
theorem c9_unique_exact_replace (content oldString newString : Str) (replaceAll : Bool)
    (hocc : (occPositions content oldString).length = 1)
    (hne : oldString ≠ newString) :
    ReplaceInContent content oldString newString replaceAll =
      Except.ok (goReplaceOnce content oldString newString) := by
  have hcont : goContains content oldString = true :=
    goContains_of_ne_nil (by intro hz; rw [hz] at hocc; simp at hocc)
  obtain ⟨tail, htail⟩ := allMatches_cons_of_contains hcont
  unfold ReplaceInContent
  rw [if_neg hne, htail]
  cases replaceAll with
  | true =>
    rw [findUsableMatch_true]
    simp [goReplaceAll_eq_goReplaceOnce_of_unique hocc]
  | false =>
    have hbeq := goIndex_beq_goLastIndex_of_one hocc
    rw [show findUsableMatch content false (oldString :: tail) = some oldString from by
      rw [findUsableMatch]; simp [hbeq]]
    rfl

/-- C9 witness: `world` occurs once in `hello world`. -/
theorem c9_unique_exact_replace_witness :
    ((occPositions (("hello world").toList) (("world").toList)).length = 1 ∧
      ("world").toList ≠ ("there").toList) ∧
    ReplaceInContent (("hello world").toList) (("world").toList) (("there").toList) false =
      Except.ok (goReplaceOnce (("hello world").toList) (("world").toList)
        (("there").toList)) :=
  ⟨⟨by decide, by decide⟩,
   c9_unique_exact_replace (("hello world").toList) (("world").toList) (("there").toList)
     false (by decide) (by decide)⟩

/-- C3 counterexample: in the content `"a  b a  b\na b"` the search text
`"a  b"` occurs as a literal substring exactly twice, yet the replace with
`replaceAll = false` does NOT return the ambiguous-or-no-match error: the
whitespace-normalized strategy finds the unique variant line `"a b"` and
the call succeeds, replacing that line. -/
theorem c3_two_literal_occurrences_cex :
    (occPositions (("a  b a  b\na b").toList) (("a  b").toList)).length = 2 ∧
    ReplaceInContent (("a  b a  b\na b").toList) (("a  b").toList) (("X").toList) false =
      Except.ok (("a  b a  b\nX").toList) :=
  ⟨by decide, by decide⟩

/-- C3 (amended): when the search text occurs as a literal substring
exactly twice and differs from the replacement, `replaceAll = true`
replaces every occurrence (via strategy 1); with `replaceAll = false` the
ambiguous literal itself is never replaced — the call either returns the
ambiguous-or-no-match error, or succeeds by replacing a candidate of a
later, whitespace-tolerant strategy that is different from the search text
and passes the uniqueness test (first occurrence index equals last). -/
theorem c3_two_occurrences (content oldString newString : Str)
    (hocc : (occPositions content oldString).length = 2)
    (hne : oldString ≠ newString) :
    ReplaceInContent content oldString newString true =
      Except.ok (goReplaceAll content oldString newString) ∧
    ∀ r, ReplaceInContent content oldString newString false = Except.ok r →
      ∃ m, m ≠ oldString ∧ (goIndex content m == goLastIndex content m) = true ∧
        r = goReplaceOnce content m newString := by
  have hcont : goContains content oldString = true :=
    goContains_of_ne_nil (by intro hz; rw [hz] at hocc; simp at hocc)
  obtain ⟨tail, htail⟩ := allMatches_cons_of_contains hcont
  constructor
  · unfold ReplaceInContent
    rw [if_neg hne, htail, findUsableMatch_true]
    rfl
  · intro r hr
    unfold ReplaceInContent at hr
    rw [if_neg hne] at hr
    cases hm : findUsableMatch content false (allMatches content oldString) with
    | none => rw [hm] at hr; exact absurd hr (by simp)
    | some m =>
      rw [hm] at hr
      simp only [Bool.false_eq_true, if_false] at hr
      have hbeq := findUsableMatch_false_unique hm
      refine ⟨m, ?_, hbeq, ?_⟩
      · intro he
        rw [he, goIndex_beq_goLastIndex_of_two hocc] at hbeq
        exact Bool.false_ne_true hbeq
      · exact (Except.ok.injEq _ _ ▸ hr).symm

/-- C3 witness: the amended statement at content `abab`, search `ab`. -/
theorem c3_two_occurrences_witness :
    ((occPositions (("abab").toList) (("ab").toList)).length = 2 ∧
      ("ab").toList ≠ ("X").toList) ∧
    (ReplaceInContent (("abab").toList) (("ab").toList) (("X").toList) true =
        Except.ok (goReplaceAll (("abab").toList) (("ab").toList) (("X").toList)) ∧
      ∀ r, ReplaceInContent (("abab").toList) (("ab").toList) (("X").toList) false =
          Except.ok r →
        ∃ m, m ≠ ("ab").toList ∧
          (goIndex (("abab").toList) m == goLastIndex (("abab").toList) m) = true ∧
          r = goReplaceOnce (("abab").toList) m (("X").toList)) :=
  ⟨⟨by decide, by decide⟩,
   c3_two_occurrences (("abab").toList) (("ab").toList) (("X").toList)
     (by decide) (by decide)⟩

/-- C1: at a batch of 2 tool calls with an interrupt (instruction `do X`)
answered at call 1, the code skips call 2 (no call is executed), but extends
the conversation by THREE messages: the call-1 tool result, the user
instruction, and the call-1 tool result AGAIN — `executeToolBasedOnResponse`
appends the result and comments "Return early to skip adding the result
again", yet `handleToolCalls` appends the returned result unconditionally.
The claim (and the spec) say exactly two messages are appended and no
further tool-result message for call 1; the code contradicts its own
comment, so this is a code bug. -/
theorem c1_interrupt_duplicates_tool_result :
    handleToolCalls toolExecStub toolExecStub [] exInterruptBatch =
      ([Msg.mk Role.tool exInterruptResult (("id1").toList),
        Msg.mk Role.user (("do X").toList) [],
        Msg.mk Role.tool exInterruptResult (("id1").toList)], []) := by
  decide

/-- C2 counterexample: with a 9-message stored conversation and a last
prompt-token count of 30000 (> 25000), the successful loop iteration sends
the trimmed history to the model, but the stored conversation afterwards is
NOT the trimmed sequence plus the assistant message — the trimmed copy is
not persisted back, contradicting the claim. -/
theorem c2_trim_not_persisted_cex :
    (chatStepSuccess exMessages (some 30000) (mkMsg Role.assistant "a")).1 =
      TrimContext exMessages ∧
    (chatStepSuccess exMessages (some 30000) (mkMsg Role.assistant "a")).2 ≠
      TrimContext exMessages ++ [mkMsg Role.assistant "a"] := by
  decide

/-- C2 (amended): in every loop iteration of a turn, when the last known
prompt-token count exceeds 25000 the working history sent to the model is
the trimmed history, but on the successful path the stored conversation is
not replaced — it stays the full history with the assistant message
appended; the trimmed copy is persisted back as the new baseline only on
the context-overflow error-retry path. -/
theorem c2_trim_sent_not_persisted (conversation : List Msg) (t : Nat)
    (assistant : Msg) (ht : 25000 < t) :
    (chatStepSuccess conversation (some t) assistant).1 = TrimContext conversation ∧
    (chatStepSuccess conversation (some t) assistant).2 = conversation ++ [assistant] ∧
    (chatContextOverflowRetry conversation).2 = TrimContext conversation := by
  refine ⟨?_, rfl, rfl⟩
  simp [chatStepSuccess, chatSendMessages, ht]

/-- C2 witness: the amended statement, instantiated at the 9-message
example conversation with 30000 prompt tokens. -/
theorem c2_trim_sent_not_persisted_witness :
    25000 < 30000 ∧
    ((chatStepSuccess exMessages (some 30000) (mkMsg Role.assistant "a")).1 =
        TrimContext exMessages ∧
      (chatStepSuccess exMessages (some 30000) (mkMsg Role.assistant "a")).2 =
        exMessages ++ [mkMsg Role.assistant "a"] ∧
      (chatContextOverflowRetry exMessages).2 = TrimContext exMessages) :=
  ⟨by norm_num,
   c2_trim_sent_not_persisted exMessages 30000 (mkMsg Role.assistant "a") (by norm_num)⟩

/-- C5 counterexample: on a 9-message conversation whose 6-message recent
window contains a system message, `TrimContext` differs from the claimed
output (system messages followed by the 6 most recent non-system messages):
the non-system message `u2`, among the 6 most recent non-system messages
but outside the last-6-messages window, is dropped by the code. -/
theorem c5_trim_window_cex : TrimContext exMessages ≠ TrimContextClaimed exMessages := by
  decide

/-- C5 (amended): for every input of more than 3 messages, `TrimContext`
returns exactly the system messages of the input (in order) followed by the
non-system messages among the last 6 messages of the input (in order) —
possibly fewer than 6, when system messages occupy part of that window; the
tail contains no system message (so none is duplicated) and is a
subsequence of the input. -/
theorem c5_trim_shape (messages : List Msg) (h : 3 < messages.length) :
    TrimContext messages =
      messages.filter (fun m => m.role == Role.system) ++
        (messages.drop (messages.length - 6)).filter (fun m => !(m.role == Role.system)) ∧
    (∀ m ∈ (messages.drop (messages.length - 6)).filter
        (fun m => !(m.role == Role.system)), ¬ m.role = Role.system) ∧
    ((messages.drop (messages.length - 6)).filter
        (fun m => !(m.role == Role.system))).Sublist messages := by
  refine ⟨?_, ?_, (List.filter_sublist _).trans (List.drop_sublist _ _)⟩
  · unfold TrimContext
    rw [if_neg (by omega)]
    by_cases h6 : 6 < messages.length
    · simp only [if_pos h6]
    · have hz : messages.length - 6 = 0 := by omega
      rw [if_neg h6, hz, List.drop_zero]
  · intro m hm
    have := List.of_mem_filter hm
    simpa using this

/-- C5 witness: the amended statement at the 9-message example. -/
theorem c5_trim_shape_witness :
    3 < exMessages.length ∧
    (TrimContext exMessages =
      exMessages.filter (fun m => m.role == Role.system) ++
        (exMessages.drop (exMessages.length - 6)).filter
          (fun m => !(m.role == Role.system)) ∧
    (∀ m ∈ (exMessages.drop (exMessages.length - 6)).filter
        (fun m => !(m.role == Role.system)), ¬ m.role = Role.system) ∧
    ((exMessages.drop (exMessages.length - 6)).filter
        (fun m => !(m.role == Role.system))).Sublist exMessages) :=
  ⟨by decide, c5_trim_shape exMessages (by decide)⟩

/-- C7: for identical old and new contents, `GenerateDiff` emits exactly
the header, the rule, and the "no changes" sentinel — it returns before any
opcode computation, and its output contains no added, removed, or context
lines (and no ellipsis marker). -/
theorem c7_no_changes_sentinel (content filename : Str) :
    GenerateDiff content content filename =
      [DiffLine.header filename, DiffLine.rule, DiffLine.noChanges] ∧
    countCtx (GenerateDiff content content filename) = 0 ∧
    countAdd (GenerateDiff content content filename) = 0 ∧
    countDel (GenerateDiff content content filename) = 0 ∧
    countEllipsis (GenerateDiff content content filename) = 0 := by
  have h : GenerateDiff content content filename =
      [DiffLine.header filename, DiffLine.rule, DiffLine.noChanges] := by
    simp [GenerateDiff]
  refine ⟨h, ?_, ?_, ?_, ?_⟩ <;>
    simp [h, countCtx, countAdd, countDel, countEllipsis,
      isCtxLine, isAddLine, isDelLine, isEllipsisLine, List.filter]

/-- C8: whenever `oldText` equals `newText`, `ReplaceInContent` fails with
the no-op error immediately — the result is this error for every content
and both `replaceAll` values, before any matching strategy examines the
content. -/
theorem c8_noop_fails_fast (content oldString : Str) (replaceAll : Bool) :
    ReplaceInContent content oldString oldString replaceAll =
      Except.error (("oldString and newString must be different").toList) := by
  simp [ReplaceInContent]

end MCode
